import Mathlib

/-!
Verification of the core algorithms of the policy-audit pipeline
(`src/nodes/gap_analysis.py`, `src/nodes/evidence.py`, `src/nodes/policy.py`,
`src/run_graph.py`) against its natural-language specification.

The Python code is shallowly embedded: strings are Lean `String`s, Python
`None`-able values are `Option`s, raising code returns `Except`, and the
per-statement control flow of each source function is reproduced directly.
-/

set_option maxHeartbeats 1000000

namespace PolicyAudit

/-! ## Python string primitives

These model the Python builtins used by the source: `str.split()` /
whitespace normalisation, `str.strip()`, `str.splitlines()`, `str.lower()`
and the `in` substring operator.  Whitespace is modelled by the ASCII
whitespace characters Python's `str.isspace` recognises; `splitlines` is
modelled for `\n`-separated text (the universal-newline variants do not
occur in the texts handled here); `lower` is modelled on ASCII letters. -/

def pyIsSpace (c : Char) : Bool :=
  c = ' ' || c = '\t' || c = '\n' || c = '\r' || c = '\x0b' || c = '\x0c'

/-- Model of Python `s.strip()` on the character list. -/
def stripList (l : List Char) : List Char :=
  ((l.dropWhile pyIsSpace).reverse.dropWhile pyIsSpace).reverse

/-- Model of Python `s.strip()`. -/
def pyStrip (s : String) : String :=
  String.mk (stripList s.data)

/-- Model of Python `s.lower()` (ASCII letters). -/
def pyLower (s : String) : String :=
  String.mk (s.data.map Char.toLower)

/-- Model of Python `needle in hay` (substring containment). -/
def containsSub (hay needle : String) : Bool :=
  decide (needle.data <:+: hay.data)

/-- Helper for `pyWords`: accumulates the current word (reversed). -/
def pyWordsAux : List Char → List Char → List (List Char)
  | [], acc => if acc.isEmpty then [] else [acc.reverse]
  | c :: cs, acc =>
    if pyIsSpace c then
      if acc.isEmpty then pyWordsAux cs [] else acc.reverse :: pyWordsAux cs []
    else
      pyWordsAux cs (c :: acc)

/-- Model of Python `s.split()`: maximal runs of non-whitespace characters. -/
def pyWords (s : String) : List String :=
  (pyWordsAux s.data []).map String.mk

/-- Model of `" ".join(s.split())`, the whitespace normalisation used
throughout `gap_analysis.py`. -/
def normWs (s : String) : String :=
  String.intercalate (" ") (pyWords s)

/-- Helper for `pySplitlines`: split at `\n`, no trailing empty piece. -/
def pySplitlinesAux : List Char → List Char → List String
  | [], acc => if acc.isEmpty then [] else [String.mk acc.reverse]
  | c :: cs, acc =>
    if c = '\n' then String.mk acc.reverse :: pySplitlinesAux cs []
    else pySplitlinesAux cs (c :: acc)

/-- Model of Python `s.splitlines()` for `\n`-separated text:
`"a\nb\n"` gives `["a","b"]`, `""` gives `[]`, `"\n"` gives `[""]`. -/
def pySplitlines (s : String) : List String :=
  pySplitlinesAux s.data []

/-! ## Evidence heuristic extractor (`src/nodes/evidence.py`,
`derive_required_controls`) -/

/-- A `(control, rationale)` entry of `required_controls_from_evidence`. -/
structure ReqControl where
  control : String
  rationale : String
deriving DecidableEq, Repr

/-- The fixed four controls appended by the brute-force trigger block of
`derive_required_controls`. -/
def bruteForceControls : List ReqControl :=
  [ ⟨"Account lockout policy", "Mitigate repeated invalid logons"⟩,
    ⟨"SSH rate limiting / fail2ban", "Throttle repeated auth attempts on OpenSSH"⟩,
    ⟨"Alerting on repeated failures", "SOC visibility of brute-force attempts"⟩,
    ⟨"MFA for privileged accounts", "Reduce impact of guessed credentials"⟩ ]

/-- One insertion step of the Python dict comprehension
`\x7b r["control"]: r for r in required \x7d`: an existing key keeps its
position and gets the new value, a new key is appended at the end. -/
def dictInsertStep (acc : List (String × ReqControl)) (r : ReqControl) :
    List (String × ReqControl) :=
  if acc.any (fun p => p.1 = r.control) then
    acc.map (fun p => if p.1 = r.control then (p.1, r) else p)
  else
    acc ++ [(r.control, r)]

/-- Model of `list(\x7b r["control"]: r for r in required \x7d.values())`:
Python dict semantics, i.e. first-insertion order with last-write-wins
values. -/
def pyDictDedupValues (rs : List ReqControl) : List ReqControl :=
  (rs.foldl dictInsertStep []).map (fun p => p.2)

/-- Embeds `derive_required_controls` from `src/nodes/evidence.py`:
lowercase the evidence summary (`state.get("evidence_summary") or ""`),
extend `required` by the fixed four controls when any trigger phrase
occurs, then de-duplicate by control name via a dict comprehension. -/
def derive_required_controls (evidence_summary : Option String) : List ReqControl :=
  let evidence := pyLower (evidence_summary.getD "")
  let required :=
    if containsSub evidence ("4625") || containsSub evidence ("failed logon")
        || containsSub evidence ("brute force") || containsSub evidence ("t1110") then
      bruteForceControls
    else
      []
  pyDictDedupValues required

/-! ## Policy selection (`src/nodes/policy.py`, `select_policies`) -/

/-- Embeds the `try: chosen = json.loads(resp.content) ...` block of
`select_policies`.  The module `src/nodes/policy.py` never imports `json`,
so evaluating `json.loads` raises `NameError` for every response text and
the `except Exception` branch always runs; the try-body is therefore the
always-failing computation. -/
def policyJsonLoads (_resp : String) : Except String (List String) :=
  Except.error ("NameError: name json is not defined")

/-- The auto-selection path of `select_policies`: the parse attempt,
its `except` fallback `chosen = candidates[:max_k]`, and the final
`state["selected_policy_paths"] = chosen[:max_k]`. -/
def select_policies_auto (candidates : List String) (max_k : Nat) (resp : String) :
    List String :=
  let chosen :=
    match policyJsonLoads resp with
    | Except.ok v => v
    | Except.error _ => candidates.take max_k
  chosen.take max_k

/-- Embeds `select_policies` from `src/nodes/policy.py`:
a pre-selection that is a non-empty list with at least two entries is
honoured unchanged; otherwise the oracle-response path runs.
`pre` is the caller-supplied `selected_policy_paths`, `candidates` is
`list(state.get("policy_texts").keys())`, `max_k` is `max_policy_choices`
and `resp` the oracle response text. -/
def select_policies (pre : Option (List String)) (candidates : List String)
    (max_k : Nat) (resp : String) : List String :=
  match pre with
  | some l => if l ≠ [] ∧ 2 ≤ l.length then l else select_policies_auto candidates max_k resp
  | none => select_policies_auto candidates max_k resp

/-! ## Citation resolver (`src/nodes/gap_analysis.py`,
`number_lines` and `find_best_line_numbers`) -/

/-- Helper embedding `[(i + 1, lines[i]) for i in range(len(lines))]`:
number a list of lines starting at `n`. -/
def numberFrom : Nat → List String → List (Nat × String)
  | _, [] => []
  | n, l :: ls => (n, l) :: numberFrom (n + 1) ls

/-- Embeds `number_lines` from `src/nodes/gap_analysis.py`: 1-based
`(line_number, line_text)` pairs, empty lines preserved. -/
def number_lines (text : String) : List (Nat × String) :=
  numberFrom 1 (pySplitlines text)

/-- Embeds the dict comprehension
`normalized_map = \x7b " ".join(t.split()): ln for ln, t in numbered_lines \x7d`
followed by `.get(c)`: the returned line number is the one of the last
pair whose normalised text equals the key (later entries overwrite
earlier ones). -/
def normalized_map (numbered_lines : List (Nat × String)) (key : String) : Option Nat :=
  numbered_lines.foldl (fun acc p => if normWs p.2 = key then some p.1 else acc) none

/-- The exact-containment pass of `find_best_line_numbers`: every line
whose whitespace-normalised text contains the normalised quote. -/
def exactHits (numbered_lines : List (Nat × String)) (quote : String) : List Nat :=
  (numbered_lines.filter
    (fun p => containsSub (normWs p.2) (normWs quote))).map (fun p => p.1)

/-- Embeds `find_best_line_numbers` from `src/nodes/gap_analysis.py`.
The external library call `difflib.get_close_matches(quote_norm,
normalised_lines, n=max_fuzzy_candidates, cutoff=cutoff)` is abstracted
as the parameter `closeMatches` (it is Python-stdlib code, not part of
this repository); everything else follows the source statement by
statement: empty quote short-circuit, exact containment on
whitespace-normalised text (`exactHits`), then the fuzzy candidates
mapped back through `normalized_map`, keeping only truthy (non-zero)
line numbers. -/
def find_best_line_numbers (closeMatches : String → List String → List String)
    (numbered_lines : List (Nat × String)) (quote : String) : List Nat :=
  if quote = "" then []
  else if exactHits numbered_lines quote ≠ [] then exactHits numbered_lines quote
  else if closeMatches (normWs quote) (numbered_lines.map (fun p => normWs p.2)) = [] then []
  else
    (closeMatches (normWs quote) (numbered_lines.map (fun p => normWs p.2))).filterMap
      (fun c =>
        match normalized_map numbered_lines c with
        | some ln => if ln ≠ 0 then some ln else none
        | none => none)

/-! ## Baseline/target resolution (`src/nodes/gap_analysis.py`,
`compare_policies`, lines 129-148) -/

/-- Python truthiness of an optional string: `None` and `""` are falsy. -/
def pyTruthyS : Option String → Bool
  | none => false
  | some s => decide (s ≠ "")

/-- The recognizable-name predicate of line 130 of `compare_policies`:
`"CIS_Controls" in p or "CIS" in p`. -/
def cisHeuristic (p : String) : Bool :=
  containsSub p ("CIS_Controls") || containsSub p ("CIS")

/-- The recognizable-name predicate of line 131 of `compare_policies`:
`"Pan User Account Policy" in p or "Pan" in p`. -/
def panHeuristic (p : String) : Bool :=
  containsSub p ("Pan User Account Policy") || containsSub p ("Pan")

/-- Embeds lines 129-148 of `compare_policies`: the auto-detect
heuristic over the available keys, then the caller pre-selection, then
the first two available keys, else `ValueError`.  `avail` is the key
list of `(snippets or summaries)` and `selected` is
`state.get("selected_policy_paths")`.  `compareStep1` is the state of
`(cis_key, pan_key)` after the heuristic and the pre-selection steps
(lines 130-142); `resolveCompareKeys` adds the first-two-keys fallback
and the `ValueError` (lines 143-148). -/
def compareStep1 (avail selected : List String) : Option String × Option String :=
  if (pyTruthyS (avail.find? cisHeuristic) && pyTruthyS (avail.find? panHeuristic)) = false
      ∧ 2 ≤ selected.length then
    (selected.get? 0, selected.get? 1)
  else (avail.find? cisHeuristic, avail.find? panHeuristic)

def resolveCompareKeys (avail : List String) (selected : List String) :
    Except String (String × String) :=
  if (pyTruthyS (compareStep1 avail selected).1
      && pyTruthyS (compareStep1 avail selected).2) = true then
    Except.ok ((compareStep1 avail selected).1.getD "", (compareStep1 avail selected).2.getD "")
  else if 2 ≤ avail.length then
    Except.ok (avail.getD 0 "", avail.getD 1 "")
  else
    Except.error ("Not enough policies to compare.")

/-- Embeds the choice of key iteration source in `compare_policies`:
`(snippets or summaries)` iterates the snippet keys when the snippets
dict is non-empty, else the summaries keys. -/
def compare_policies_select (snipKeys sumKeys selected : List String) :
    Except String (String × String) :=
  resolveCompareKeys (if snipKeys.isEmpty then sumKeys else snipKeys) selected

/-! ## Citation verifier (`src/nodes/gap_analysis.py`,
`verify_and_convert` inside `compare_policies`) -/

/-- A snippet of the pool (`state["policy_snippets"][key]`), after the
`str(...)` conversions the comparison applies to `source` and `page`;
`line_start`/`line_end` keep Python's `None`-able integers. -/
structure Snip where
  source : String
  page : String
  line_start : Option Int
  line_end : Option Int
  text : String
deriving DecidableEq, Repr

/-- A ref claimed by the oracle inside a gap (`cis_refs` / `pan_refs`);
`quote` is the raw claimed quote before `.strip()`. -/
structure CRef where
  source : String
  page : String
  line_start : Option Int
  line_end : Option Int
  quote : String
deriving DecidableEq, Repr

/-- An entry of the converted output list `out`. -/
structure OutRef where
  line_hint : String
  line_numbers : List (Option Int)
deriving DecidableEq, Repr

/-- The result of `verify_and_convert`: the `ok` flag and the converted
list `out` the Python function returns, plus `tags`, recording per input
ref the `__verify_error` value the loop writes into the claimed-ref dict
(`none` when the ref is left untouched). -/
structure VCResult where
  ok : Bool
  out : List OutRef
  tags : List (Option String)
deriving DecidableEq, Repr

/-- The match condition of `verify_and_convert`:
`str(source) == str(source) and str(page) == str(page) and
line_start == line_start and line_end == line_end`. -/
def matchKey (r : CRef) (s : Snip) : Bool :=
  s.source = r.source && s.page = r.page
    && s.line_start = r.line_start && s.line_end = r.line_end

/-- The converted form of a matched ref:
`\x7b "line_hint": quote or "", "line_numbers": [line_start, line_end] \x7d`. -/
def mkOut (r : CRef) : OutRef :=
  ⟨pyStrip r.quote, [r.line_start, r.line_end]⟩

/-- One iteration of the `for r in refs` loop of `verify_and_convert`. -/
def vcStep (pool : List Snip) (acc : VCResult) (r : CRef) : VCResult :=
  match (pool.filter (matchKey r)).head? with
  | none =>
    { ok := false, out := acc.out, tags := acc.tags ++ [some ("no_matching_snippet")] }
  | some m =>
    let quote := pyStrip r.quote
    let flagged := decide (quote ≠ "") && ! containsSub m.text quote
    { ok := acc.ok && ! flagged
      out := acc.out ++ [mkOut r]
      tags := acc.tags ++ [if flagged then some ("quote_not_in_snippet") else none] }

/-- Embeds `verify_and_convert` from `compare_policies`
(`src/nodes/gap_analysis.py` lines 186-210). -/
def verify_and_convert (refs : List CRef) (pool : List Snip) : VCResult :=
  refs.foldl (vcStep pool) ⟨true, [], []⟩

/-- The per-ref tag `verify_and_convert` assigns (characterisation used
by the theorems below). -/
def tagOf (pool : List Snip) (r : CRef) : Option String :=
  match (pool.filter (matchKey r)).head? with
  | none => some ("no_matching_snippet")
  | some m =>
    if decide (pyStrip r.quote ≠ "") && ! containsSub m.text (pyStrip r.quote) then
      some ("quote_not_in_snippet")
    else none

/-- Embeds the per-gap flag `"__verified": bool(cis_ok and pan_ok)`. -/
def gap_verified (cis_ok pan_ok : Bool) : Bool :=
  cis_ok && pan_ok

/-! ## Text windower (`src/run_graph.py`, `make_line_window_nodes`) -/

/-- The line-range metadata and text of an emitted `TextNode` (the
constant `source`/`page` metadata is dropped). -/
structure WNode where
  line_start : Nat
  line_end : Nat
  text : String
deriving DecidableEq, Repr

/-- The loop state of `make_line_window_nodes`: emitted nodes, the
buffer of line segments, `start_ln` and `cur_len`. -/
structure WinSt where
  nodes : List WNode
  buf : List String
  start_ln : Nat
  cur_len : Nat
deriving DecidableEq, Repr

/-- Embeds `buf[-overlap:] if overlap < len(buf) else buf`.  Note the
Python corner case: for `overlap = 0` the slice `buf[-0:]` is the whole
buffer. -/
def pyKeep (buf : List String) (ov : Nat) : List String :=
  if 0 < ov ∧ ov < buf.length then buf.drop (buf.length - ov) else buf

/-- Embeds the flush block of `make_line_window_nodes` at loop index `i`
(1-based): emit the stripped buffer as a node (unless whitespace-only),
seed the next buffer with the trailing slice, recompute `start_ln` as
`max(1, i - len(overlap_lines) + 1)` and `cur_len` as the kept length. -/
def flushState (ov i : Nat) (st : WinSt) : WinSt :=
  { nodes :=
      if pyStrip (String.join st.buf) = "" then st.nodes
      else st.nodes ++ [⟨st.start_ln, i - 1, pyStrip (String.join st.buf)⟩]
    buf := pyKeep st.buf ov
    start_ln := max 1 (i - (pyKeep st.buf ov).length + 1)
    cur_len := ((pyKeep st.buf ov).map String.length).sum }

/-- One iteration of `for i, line in enumerate(lines, start=1)`: flush
when adding the segment `line + "\n"` would exceed `window_chars` and
the buffer is non-empty, then append the segment. -/
def windowStep (w ov : Nat) (line : String) (i : Nat) (st : WinSt) : WinSt :=
  { (if w < st.cur_len + (line ++ "\n").length ∧ st.buf ≠ [] then flushState ov i st else st)
    with
    buf := (if w < st.cur_len + (line ++ "\n").length ∧ st.buf ≠ []
        then flushState ov i st else st).buf ++ [line ++ "\n"]
    cur_len := (if w < st.cur_len + (line ++ "\n").length ∧ st.buf ≠ []
        then flushState ov i st else st).cur_len + (line ++ "\n").length }

/-- The whole line loop of `make_line_window_nodes`. -/
def windowLoop (w ov : Nat) : List String → Nat → WinSt → WinSt
  | [], _, st => st
  | line :: rest, i, st => windowLoop w ov rest (i + 1) (windowStep w ov line i st)

/-- Embeds the trailing `if buf:` flush of `make_line_window_nodes`,
with `line_end = len(lines)` (`n`). -/
def finalFlush (n : Nat) (st : WinSt) : List WNode :=
  if st.buf = [] then st.nodes
  else if pyStrip (String.join st.buf) = "" then st.nodes
  else st.nodes ++ [⟨st.start_ln, n, pyStrip (String.join st.buf)⟩]

/-- Embeds `make_line_window_nodes` from `src/run_graph.py` (the
definition at lines 82-124, which shadows the earlier identical-logic
one) for a single page text: run the loop over the page's lines from
index 1 with an empty buffer, then flush the remaining buffer. -/
def make_line_window_nodes (w ov : Nat) (text : String) : List WNode :=
  finalFlush (pySplitlines text).length
    (windowLoop w ov (pySplitlines text) 1 ⟨[], [], 1, 0⟩)

/-- A document line `ln` is covered by one of the emitted snippets. -/
def coveredBy (nodes : List WNode) (ln : Nat) : Prop :=
  ∃ nd ∈ nodes, nd.line_start ≤ ln ∧ ln ≤ nd.line_end

/-- The buffer contents corresponding to document lines `a, a+1, ...,
a+len-1` (1-based): each line turned into the segment `line ++ "\n"`. -/
def SegsOf (lines : List String) (a len : Nat) : List String :=
  ((lines.drop (a - 1)).take len).map (fun l => l ++ "\n")

/-! ## Response normaliser (`src/nodes/gap_analysis.py`,
`normalize_llm_json`)

The external call `json.loads` (Python stdlib, not repository code) is
modelled by a JSON parser for the fragment the pipeline exchanges:
null, booleans, integers, strings with the standard single-character
escapes, arrays and objects, with JSON whitespace between tokens and a
full-consumption check.  Floats and `\u` escapes are outside the
modelled fragment and are rejected. -/

/-- JSON values. -/
inductive JValue where
  | jnull
  | jbool (b : Bool)
  | jnum (n : Int)
  | jstr (s : String)
  | jarr (xs : List JValue)
  | jobj (kvs : List (String × JValue))
deriving Repr

/-- Skip JSON whitespace. -/
def jskipWs : List Char → List Char
  | [] => []
  | c :: cs => if c = ' ' || c = '\t' || c = '\n' || c = '\r' then jskipWs cs else c :: cs

/-- Parse the remainder of a JSON string literal (after the opening
quote), accumulating decoded characters in reverse. -/
def parseStrAux : List Char → List Char → Option (String × List Char)
  | [], _ => none
  | c :: cs, acc =>
    if c = '"' then some (String.mk acc.reverse, cs)
    else if c = '\\' then
      match cs with
      | [] => none
      | e :: cs2 =>
        if e = '"' then parseStrAux cs2 ('"' :: acc)
        else if e = '\\' then parseStrAux cs2 ('\\' :: acc)
        else if e = '/' then parseStrAux cs2 ('/' :: acc)
        else if e = 'n' then parseStrAux cs2 ('\n' :: acc)
        else if e = 't' then parseStrAux cs2 ('\t' :: acc)
        else if e = 'r' then parseStrAux cs2 ('\r' :: acc)
        else if e = 'b' then parseStrAux cs2 (Char.ofNat 8 :: acc)
        else if e = 'f' then parseStrAux cs2 (Char.ofNat 12 :: acc)
        else none
    else if c.toNat < 32 then none
    else parseStrAux cs (c :: acc)

/-- Split a leading run of decimal digits. -/
def takeDigits : List Char → (List Char × List Char)
  | [] => ([], [])
  | c :: cs =>
    if c.isDigit then
      let p := takeDigits cs
      (c :: p.1, p.2)
    else ([], c :: cs)

/-- Numeric value of a digit run. -/
def digitsToNat (ds : List Char) : Nat :=
  ds.foldl (fun a c => a * 10 + (c.toNat - 48)) 0

/-- Parse a JSON integer (optional minus sign, no leading zeros, and no
fraction or exponent, which are outside the modelled fragment). -/
def parseNumJ (cs : List Char) : Option (Int × List Char) :=
  let sp : Bool × List Char :=
    match cs with
    | '-' :: r => (true, r)
    | _ => (false, cs)
  match takeDigits sp.2 with
  | ([], _) => none
  | (d :: ds, rest) =>
    if d = '0' ∧ ¬ ds.isEmpty then none
    else
      let bad : Bool :=
        match rest with
        | c :: _ => c = '.' || c = 'e' || c = 'E'
        | [] => false
      if bad then none
      else
        let n : Int := Int.ofNat (digitsToNat (d :: ds))
        some ((if sp.1 then -n else n), rest)

mutual

/-- Parse one JSON value (leading whitespace allowed); `fuel` bounds the
recursion depth. -/
def parseJ : Nat → List Char → Option (JValue × List Char)
  | 0, _ => none
  | fuel + 1, cs =>
    match jskipWs cs with
    | [] => none
    | c :: rest =>
      if c = 'n' then
        match rest with
        | 'u' :: 'l' :: 'l' :: r => some (JValue.jnull, r)
        | _ => none
      else if c = 't' then
        match rest with
        | 'r' :: 'u' :: 'e' :: r => some (JValue.jbool true, r)
        | _ => none
      else if c = 'f' then
        match rest with
        | 'a' :: 'l' :: 's' :: 'e' :: r => some (JValue.jbool false, r)
        | _ => none
      else if c = '"' then
        match parseStrAux rest [] with
        | some (s, r) => some (JValue.jstr s, r)
        | none => none
      else if c = '[' then
        match jskipWs rest with
        | ']' :: r => some (JValue.jarr [], r)
        | _ =>
          match parseArrItems fuel rest with
          | some (xs, r) => some (JValue.jarr xs, r)
          | none => none
      else if c = Char.ofNat 123 then
        match jskipWs rest with
        | c2 :: r =>
          if c2 = Char.ofNat 125 then some (JValue.jobj [], r)
          else
            match parseObjItems fuel rest with
            | some (kvs, r2) => some (JValue.jobj kvs, r2)
            | none => none
        | [] => none
      else if c = '-' || c.isDigit then
        match parseNumJ (c :: rest) with
        | some (n, r) => some (JValue.jnum n, r)
        | none => none
      else none

/-- Parse the (non-empty) comma-separated items of a JSON array up to
the closing bracket. -/
def parseArrItems : Nat → List Char → Option (List JValue × List Char)
  | 0, _ => none
  | fuel + 1, cs =>
    match parseJ fuel cs with
    | none => none
    | some (v, r) =>
      match jskipWs r with
      | ',' :: r2 =>
        match parseArrItems fuel r2 with
        | some (xs, r3) => some (v :: xs, r3)
        | none => none
      | ']' :: r2 => some ([v], r2)
      | _ => none

/-- Parse the (non-empty) comma-separated members of a JSON object up
to the closing brace. -/
def parseObjItems : Nat → List Char → Option (List (String × JValue) × List Char)
  | 0, _ => none
  | fuel + 1, cs =>
    match jskipWs cs with
    | '"' :: r =>
      match parseStrAux r [] with
      | some (k, r1) =>
        match jskipWs r1 with
        | ':' :: r2 =>
          match parseJ fuel r2 with
          | some (v, r3) =>
            match jskipWs r3 with
            | ',' :: r4 =>
              match parseObjItems fuel r4 with
              | some (kvs, r5) => some ((k, v) :: kvs, r5)
              | none => none
            | c :: r4 => if c = Char.ofNat 125 then some ([(k, v)], r4) else none
            | [] => none
          | none => none
        | _ => none
      | none => none
    | _ => none

end

/-- Model of Python `json.loads` on a character list: parse one value
and require only whitespace to remain. -/
def jsonLoadsList (cs : List Char) : Option JValue :=
  match parseJ (2 * cs.length + 4) cs with
  | some (v, rest) => if (jskipWs rest).isEmpty then some v else none
  | none => none

/-- Model of Python `json.loads` on a string. -/
def jsonLoads (s : String) : Option JValue :=
  jsonLoadsList s.data

/-- Embeds `start = min(x for x in [text.find("\x7b"), text.find("[")] if
x != -1)`: the index of the first opening brace or bracket. -/
def findBraceIdx (cs : List Char) : Option Nat :=
  cs.findIdx? (fun c => c = Char.ofNat 123 || c = '[')

/-- Embeds `for end in range(len(text), start, -1): try json.loads(
text[start:end])`: try end positions from the full length downward. -/
def tryEnds (cs : List Char) (start : Nat) : Nat → Except String JValue
  | 0 => Except.error ("Could not parse JSON from LLM output")
  | k + 1 =>
    match jsonLoadsList ((cs.take (start + k + 1)).drop start) with
    | some v => Except.ok v
    | none => tryEnds cs start k

/-- Embeds `normalize_llm_json` from `src/nodes/gap_analysis.py`:
strip, fast-path parse, locate the first `\x7b` or `[`, then shrink the
end index backward until a parse succeeds. -/
def normalize_llm_json (text : String) : Except String JValue :=
  let t := pyStrip text
  match jsonLoads t with
  | some v => Except.ok v
  | none =>
    match findBraceIdx t.data with
    | none => Except.error ("No JSON found in LLM output")
    | some start => tryEnds t.data start (t.data.length - start)

/-- Loop invariant of the windower used for the coverage proof: the
buffer holds the segments of the trailing already-seen lines, the
tracked `start_ln` never exceeds the loop index, every line strictly
before `start_ln` is covered by an emitted node, and from the second
iteration on the buffer is non-empty. -/
def WCoverInv (lines : List String) (i : Nat) (st : WinSt) : Prop :=
  st.buf = SegsOf lines (i - st.buf.length) st.buf.length
  ∧ st.buf.length < i
  ∧ 1 ≤ st.start_ln
  ∧ st.start_ln ≤ i
  ∧ (∀ l : Nat, 1 ≤ l → l < st.start_ln → coveredBy st.nodes l)
  ∧ (2 ≤ i → st.buf ≠ [])

/-- Loop invariant of the windower used for the monotonicity proof:
emitted `line_end`s are below the loop index and non-decreasing. -/
def WMonoInv (i : Nat) (st : WinSt) : Prop :=
  (∀ nd ∈ st.nodes, nd.line_end < i)
  ∧ List.Chain' (· ≤ ·) (st.nodes.map WNode.line_end)

/-! ## Theorems -/

/-- C8: the response normaliser extracts the object from a JSON prefix
with trailing junk, extracts an embedded object between noise, and fails
with the `MalformedOracleOutput` error (`ValueError("No JSON found in
LLM output")`) when the text holds no JSON at all. -/
theorem c8_response_normalizer_examples :
    normalize_llm_json ("\x7b\"a\":1\x7d trailing junk")
        = Except.ok (JValue.jobj [("a", JValue.jnum 1)])
    ∧ normalize_llm_json ("noise \x7b\"a\":[1,2]\x7d more noise")
        = Except.ok (JValue.jobj [("a", JValue.jarr [JValue.jnum 1, JValue.jnum 2])])
    ∧ normalize_llm_json ("not json at all")
        = Except.error ("No JSON found in LLM output") :=
  ⟨rfl, rfl, rfl⟩

/-- C10: an evidence summary containing `4625` and `brute force` (case
insensitively, any number of times) yields exactly the fixed four-control
list, each control once (the list is duplicate-free). -/
theorem c10_evidence_heuristic (ev : String)
    (h1 : containsSub (pyLower ev) ("4625") = true)
    (_h2 : containsSub (pyLower ev) ("brute force") = true) :
    derive_required_controls (some ev) = bruteForceControls
    ∧ (derive_required_controls (some ev)).Nodup := by
  have hder : derive_required_controls (some ev) = bruteForceControls := by
    unfold derive_required_controls
    simp only [Option.getD_some, h1, Bool.true_or, if_true]
    decide
  exact ⟨hder, by rw [hder]; decide⟩

/-- Witness for C10: a concrete evidence summary with both triggers. -/
theorem c10_witness :
    derive_required_controls (some ("Event 4625: Brute Force attack"))
        = bruteForceControls
    ∧ (derive_required_controls (some ("Event 4625: Brute Force attack"))).Nodup :=
  c10_evidence_heuristic ("Event 4625: Brute Force attack") (by decide) (by decide)

/-- C4: when no valid pre-selection is present (`selected_policy_paths`
absent or shorter than two entries), `select_policies` is independent of
the oracle response text and always stores the first `max_policy_choices`
keys of `policy_texts`, because the `json.loads` call raises (the `json`
module is not imported in `src/nodes/policy.py`) and the `except`
fallback is always taken. -/
theorem c4_select_policies_oracle_independent (pre : Option (List String))
    (cands : List String) (k : Nat) (r1 r2 : String)
    (h : ∀ l, pre = some l → l.length < 2) :
    select_policies pre cands k r1 = select_policies pre cands k r2
    ∧ select_policies pre cands k r1 = cands.take k := by
  have hauto : ∀ r : String, select_policies_auto cands k r = cands.take k := by
    intro r
    simp [select_policies_auto, policyJsonLoads, List.take_take]
  cases pre with
  | none => simp only [select_policies, hauto, and_self]
  | some l =>
    have hl : l.length < 2 := h l rfl
    have hcond : ¬ (l ≠ [] ∧ 2 ≤ l.length) := by
      rintro ⟨-, h2⟩; omega
    simp only [select_policies, if_neg hcond, hauto, and_self]

/-- Witness for C4: with no pre-selection, two different oracle
responses give the same selection, the first two candidate keys. -/
theorem c4_witness :
    select_policies none ["a", "b", "c"] 2 ("prose") =
      select_policies none ["a", "b", "c"] 2 ("[\"z\"]")
    ∧ select_policies none ["a", "b", "c"] 2 ("prose") = ["a", "b"] :=
  c4_select_policies_oracle_independent none ["a", "b", "c"] 2 ("prose") ("[\"z\"]")
    (by intro l hl; cases hl)

/-- Helper: an empty string has empty character data. -/
theorem data_eq_nil_iff (s : String) : s.data = [] ↔ s = "" := by
  constructor
  · intro h; exact String.ext h
  · intro h; rw [h]

/-- Helper: a string containing a non-empty substring is non-empty. -/
theorem containsSub_ne_empty (hay needle : String) (hn : needle ≠ "")
    (hc : containsSub hay needle = true) : hay ≠ "" := by
  have hinf : needle.data <:+: hay.data := of_decide_eq_true hc
  intro h
  rw [h] at hinf
  have : needle.data = [] := by simpa using hinf
  exact hn ((data_eq_nil_iff needle).mp this)

/-- C1: as stated, the claim is false — the comparison stage prefers the
recognizable-name heuristic OVER the caller pre-selection.  With snippet
keys `["CIS_x", "Pan_y"]` and a caller pre-selection `["alpha", "beta"]`,
the claim predicts the pair `("alpha", "beta")`, but the code resolves
the heuristic pair `("CIS_x", "Pan_y")`. -/
theorem c1_counterexample :
    compare_policies_select ["CIS_x", "Pan_y"] [] ["alpha", "beta"]
        = Except.ok ("CIS_x", "Pan_y")
    ∧ compare_policies_select ["CIS_x", "Pan_y"] [] ["alpha", "beta"]
        ≠ Except.ok ("alpha", "beta") := by
  have h1 : compare_policies_select ["CIS_x", "Pan_y"] [] ["alpha", "beta"]
      = Except.ok ("CIS_x", "Pan_y") := rfl
  refine ⟨h1, ?_⟩
  rw [h1]
  intro h
  injection h with h2
  exact absurd h2 (by decide)

/-- C1 (amended): the comparison stage resolves baseline vs target in
this preference order: (1) the recognizable-name heuristic among the
available keys, (2) the caller pre-selection when it has at least two
(non-empty) entries, (3) the first two available keys; and it fails with
the `InsufficientPolicies` error (`ValueError("Not enough policies to
compare.")`) when the heuristic pair is incomplete, no usable
pre-selection exists, and fewer than two keys are available. -/
theorem c1_amended_resolution_order (avail selected : List String) :
    (∀ c p, avail.find? cisHeuristic = some c → avail.find? panHeuristic = some p →
      resolveCompareKeys avail selected = Except.ok (c, p))
    ∧ (∀ s0 s1,
        (pyTruthyS (avail.find? cisHeuristic) && pyTruthyS (avail.find? panHeuristic)) = false →
        selected.get? 0 = some s0 → selected.get? 1 = some s1 → 2 ≤ selected.length →
        s0 ≠ "" → s1 ≠ "" →
        resolveCompareKeys avail selected = Except.ok (s0, s1))
    ∧ (∀ a0 a1,
        (pyTruthyS (avail.find? cisHeuristic) && pyTruthyS (avail.find? panHeuristic)) = false →
        selected.length < 2 →
        avail.get? 0 = some a0 → avail.get? 1 = some a1 →
        resolveCompareKeys avail selected = Except.ok (a0, a1))
    ∧ ((pyTruthyS (avail.find? cisHeuristic) && pyTruthyS (avail.find? panHeuristic)) = false →
        selected.length < 2 → avail.length < 2 →
        resolveCompareKeys avail selected
          = Except.error ("Not enough policies to compare.")) := by
  refine ⟨?_, ?_, ?_, ?_⟩
  · intro c p hc hp
    have hc1 : cisHeuristic c = true := List.find?_some hc
    have hp1 : panHeuristic p = true := List.find?_some hp
    have hcne : c ≠ "" := by
      rcases Bool.or_eq_true_iff.mp hc1 with h | h
      · exact containsSub_ne_empty c ("CIS_Controls") (by decide) h
      · exact containsSub_ne_empty c ("CIS") (by decide) h
    have hpne : p ≠ "" := by
      rcases Bool.or_eq_true_iff.mp hp1 with h | h
      · exact containsSub_ne_empty p ("Pan User Account Policy") (by decide) h
      · exact containsSub_ne_empty p ("Pan") (by decide) h
    have htc : pyTruthyS (avail.find? cisHeuristic) = true := by
      rw [hc]; simp [pyTruthyS, hcne]
    have htp : pyTruthyS (avail.find? panHeuristic) = true := by
      rw [hp]; simp [pyTruthyS, hpne]
    have hnotc : ¬ ((pyTruthyS (avail.find? cisHeuristic)
        && pyTruthyS (avail.find? panHeuristic)) = false ∧ 2 ≤ selected.length) := by
      rw [htc, htp]; rintro ⟨h1, -⟩; simp at h1
    have hstep : compareStep1 avail selected
        = (avail.find? cisHeuristic, avail.find? panHeuristic) := by
      unfold compareStep1
      rw [if_neg hnotc]
    unfold resolveCompareKeys
    rw [hstep, hc, hp]
    simp [pyTruthyS, hcne, hpne]
  · intro s0 s1 hcp hs0 hs1 hlen hne0 hne1
    have hb : compareStep1 avail selected = (some s0, some s1) := by
      unfold compareStep1
      rw [if_pos ⟨hcp, hlen⟩, hs0, hs1]
    unfold resolveCompareKeys
    rw [hb]
    simp [pyTruthyS, hne0, hne1]
  · intro a0 a1 hcp hslen ha0 ha1
    have hav : 2 ≤ avail.length := by
      obtain ⟨hlt, -⟩ := List.get?_eq_some.mp ha1
      omega
    have hnot : ¬ ((pyTruthyS (avail.find? cisHeuristic)
        && pyTruthyS (avail.find? panHeuristic)) = false ∧ 2 ≤ selected.length) := by
      rintro ⟨-, h⟩; omega
    have hc1 : compareStep1 avail selected
        = (avail.find? cisHeuristic, avail.find? panHeuristic) := by
      unfold compareStep1
      rw [if_neg hnot]
    unfold resolveCompareKeys
    rw [hc1]
    have hfalse : ¬ ((pyTruthyS (avail.find? cisHeuristic, avail.find? panHeuristic).1
        && pyTruthyS (avail.find? cisHeuristic, avail.find? panHeuristic).2) = true) := by
      simp only []
      rw [hcp]
      simp
    rw [if_neg hfalse, if_pos hav]
    have ha0g : avail[0]? = some a0 := by rw [← List.get?_eq_getElem?]; exact ha0
    have ha1g : avail[1]? = some a1 := by rw [← List.get?_eq_getElem?]; exact ha1
    simp [List.getD, ha0g, ha1g]
  · intro hcp hslen hav
    have hnot : ¬ ((pyTruthyS (avail.find? cisHeuristic)
        && pyTruthyS (avail.find? panHeuristic)) = false ∧ 2 ≤ selected.length) := by
      rintro ⟨-, h⟩; omega
    have hc1 : compareStep1 avail selected
        = (avail.find? cisHeuristic, avail.find? panHeuristic) := by
      unfold compareStep1
      rw [if_neg hnot]
    unfold resolveCompareKeys
    rw [hc1]
    have hfalse : ¬ ((pyTruthyS (avail.find? cisHeuristic, avail.find? panHeuristic).1
        && pyTruthyS (avail.find? cisHeuristic, avail.find? panHeuristic).2) = true) := by
      simp only []
      rw [hcp]
      simp
    have hav2 : ¬ 2 ≤ avail.length := by omega
    rw [if_neg hfalse, if_neg hav2]

/-- Witness for C1 (amended): with both heuristic names present, the
heuristic pair wins. -/
theorem c1_witness :
    resolveCompareKeys ["CIS_a", "Pan_b"] ["x", "y"] = Except.ok ("CIS_a", "Pan_b") :=
  ((c1_amended_resolution_order ["CIS_a", "Pan_b"] ["x", "y"]).1) ("CIS_a") ("Pan_b")
    (by decide) (by decide)

/-- Helper: the converted output of `verify_and_convert` consists of
exactly the matched refs, in order, in converted form. -/
theorem vc_foldl_out (pool : List Snip) (refs : List CRef) (acc : VCResult) :
    (refs.foldl (vcStep pool) acc).out
      = acc.out ++ (refs.filter
          (fun r => ((pool.filter (matchKey r)).head?).isSome)).map mkOut := by
  induction refs generalizing acc with
  | nil => simp
  | cons r rs ih =>
    rw [List.foldl_cons, ih, List.filter_cons]
    cases hm : (pool.filter (matchKey r)).head? with
    | none =>
      have hstep : (vcStep pool acc r).out = acc.out := by
        unfold vcStep; rw [hm]
      rw [hstep, if_neg (by simp)]
    | some m =>
      have hstep : (vcStep pool acc r).out = acc.out ++ [mkOut r] := by
        unfold vcStep; rw [hm]
      rw [hstep, if_pos (by simp), List.map_cons, List.append_assoc, List.singleton_append]

/-- Helper: the per-ref error tags of `verify_and_convert` are `tagOf`. -/
theorem vc_foldl_tags (pool : List Snip) (refs : List CRef) (acc : VCResult) :
    (refs.foldl (vcStep pool) acc).tags = acc.tags ++ refs.map (tagOf pool) := by
  induction refs generalizing acc with
  | nil => simp
  | cons r rs ih =>
    rw [List.foldl_cons, ih, List.map_cons]
    cases hm : (pool.filter (matchKey r)).head? with
    | none =>
      have hstep : (vcStep pool acc r).tags
          = acc.tags ++ [some ("no_matching_snippet")] := by
        unfold vcStep; rw [hm]
      have htag : tagOf pool r = some ("no_matching_snippet") := by
        unfold tagOf; rw [hm]
      rw [hstep, htag, List.append_assoc, List.singleton_append]
    | some m =>
      have hstep : (vcStep pool acc r).tags
          = acc.tags ++ [if decide (pyStrip r.quote ≠ "")
              && ! containsSub m.text (pyStrip r.quote) then
                some ("quote_not_in_snippet") else none] := by
        unfold vcStep; rw [hm]
      have htag : tagOf pool r
          = if decide (pyStrip r.quote ≠ "")
              && ! containsSub m.text (pyStrip r.quote) then
                some ("quote_not_in_snippet") else none := by
        unfold tagOf; rw [hm]
      rw [hstep, htag, List.append_assoc, List.singleton_append]

/-- Helper: the batch flag of `verify_and_convert` is true exactly when
no ref received an error tag. -/
theorem vc_foldl_ok (pool : List Snip) (refs : List CRef) (acc : VCResult) :
    (refs.foldl (vcStep pool) acc).ok
      = (acc.ok && refs.all (fun r => (tagOf pool r).isNone)) := by
  induction refs generalizing acc with
  | nil => simp
  | cons r rs ih =>
    rw [List.foldl_cons, ih, List.all_cons]
    cases hm : (pool.filter (matchKey r)).head? with
    | none =>
      have hstep : (vcStep pool acc r).ok = false := by
        unfold vcStep; rw [hm]
      have htag : tagOf pool r = some ("no_matching_snippet") := by
        unfold tagOf; rw [hm]
      rw [hstep, htag]
      simp
    | some m =>
      have hstep : (vcStep pool acc r).ok
          = (acc.ok && ! (decide (pyStrip r.quote ≠ "")
              && ! containsSub m.text (pyStrip r.quote))) := by
        unfold vcStep; rw [hm]
      have htag : tagOf pool r
          = if decide (pyStrip r.quote ≠ "")
              && ! containsSub m.text (pyStrip r.quote) then
                some ("quote_not_in_snippet") else none := by
        unfold tagOf; rw [hm]
      rw [hstep, htag]
      cases hfl : (decide (pyStrip r.quote ≠ "")
          && ! containsSub m.text (pyStrip r.quote)) <;>
        simp [hfl, Bool.and_assoc, Bool.and_comm]

/-- Helper: a batch is ok iff every ref of it is untagged. -/
theorem vc_ok_iff_untagged (refs : List CRef) (pool : List Snip) :
    (verify_and_convert refs pool).ok = true
      ↔ ∀ t ∈ (verify_and_convert refs pool).tags, t = none := by
  unfold verify_and_convert
  rw [vc_foldl_ok, vc_foldl_tags]
  simp [List.all_eq_true, Option.isNone_iff_eq_none]

/-- C2: a claimed ref whose `(source, page, line_start, line_end)`
matches no snippet in the pool is tagged `no_matching_snippet`, the
whole batch is flagged unverified, and the converted output (exactly the
matched refs, converted) holds no entry for it, so it contributes no
line numbers. -/
theorem c2_no_matching_snippet (refs : List CRef) (pool : List Snip) (i : Nat) (r : CRef)
    (hi : refs.get? i = some r)
    (hnm : ∀ s ∈ pool, matchKey r s = false) :
    (verify_and_convert refs pool).tags.get? i = some (some ("no_matching_snippet"))
    ∧ (verify_and_convert refs pool).ok = false
    ∧ (verify_and_convert refs pool).out
        = (refs.filter (fun q => ((pool.filter (matchKey q)).head?).isSome)).map mkOut
    ∧ ∀ q ∈ refs.filter (fun q => ((pool.filter (matchKey q)).head?).isSome), q ≠ r := by
  have hfil : pool.filter (matchKey r) = [] := by
    rw [List.filter_eq_nil_iff]
    intro s hs
    simp [hnm s hs]
  have htag : tagOf pool r = some ("no_matching_snippet") := by
    unfold tagOf; rw [hfil]; rfl
  have hmem : r ∈ refs := List.get?_mem hi
  refine ⟨?_, ?_, ?_, ?_⟩
  · unfold verify_and_convert
    rw [vc_foldl_tags]
    have hig : refs[i]? = some r := by rw [← List.get?_eq_getElem?]; exact hi
    rw [List.nil_append, List.get?_eq_getElem?, List.getElem?_map, hig, Option.map_some', htag]
  · unfold verify_and_convert
    rw [vc_foldl_ok]
    simp only [Bool.true_and]
    refine Bool.eq_false_iff.mpr ?_
    intro hall
    have := List.all_eq_true.mp hall r hmem
    rw [htag] at this
    cases this
  · unfold verify_and_convert
    rw [vc_foldl_out]
    simp
  · intro q hq heq
    have hp := (List.mem_filter.mp hq).2
    rw [heq, hfil] at hp
    cases hp

/-- Witness for C2: a ref with an empty pool. -/
theorem c2_witness :
    (verify_and_convert [(⟨"s", "1", some 3, some 7, "q"⟩ : CRef)] []).ok = false :=
  (c2_no_matching_snippet [(⟨"s", "1", some 3, some 7, "q"⟩ : CRef)] [] 0
    (⟨"s", "1", some 3, some 7, "q"⟩ : CRef) rfl
    (by intro s hs; cases hs)).2.1

/-- C3: a claimed ref that matches a snippet but whose non-empty
stripped quote is not a verbatim substring of that snippet's text is
tagged `quote_not_in_snippet` and the batch is flagged unverified, while
its converted entry, with the `[line_start, line_end]` range, is still
recorded in the output; and a gap's `__verified` flag is true exactly
when zero refs on either side are tagged. -/
theorem c3_quote_not_in_snippet :
    (∀ (refs : List CRef) (pool : List Snip) (i : Nat) (r : CRef) (m : Snip),
      refs.get? i = some r →
      (pool.filter (matchKey r)).head? = some m →
      pyStrip r.quote ≠ "" →
      containsSub m.text (pyStrip r.quote) = false →
      (verify_and_convert refs pool).tags.get? i = some (some ("quote_not_in_snippet"))
      ∧ (verify_and_convert refs pool).ok = false
      ∧ mkOut r ∈ (verify_and_convert refs pool).out
      ∧ (mkOut r).line_numbers = [r.line_start, r.line_end])
    ∧ (∀ (refsA refsB : List CRef) (poolA poolB : List Snip),
      gap_verified (verify_and_convert refsA poolA).ok (verify_and_convert refsB poolB).ok
          = true
        ↔ ((∀ t ∈ (verify_and_convert refsA poolA).tags, t = none)
           ∧ (∀ t ∈ (verify_and_convert refsB poolB).tags, t = none))) := by
  constructor
  · intro refs pool i r m hi hm hq hnc
    have htag : tagOf pool r = some ("quote_not_in_snippet") := by
      unfold tagOf
      rw [hm]
      simp [hq, hnc]
    have hmem : r ∈ refs := List.get?_mem hi
    refine ⟨?_, ?_, ?_, rfl⟩
    · unfold verify_and_convert
      rw [vc_foldl_tags]
      have hig : refs[i]? = some r := by rw [← List.get?_eq_getElem?]; exact hi
      rw [List.nil_append, List.get?_eq_getElem?, List.getElem?_map, hig, Option.map_some', htag]
    · unfold verify_and_convert
      rw [vc_foldl_ok]
      simp only [Bool.true_and]
      refine Bool.eq_false_iff.mpr ?_
      intro hall
      have := List.all_eq_true.mp hall r hmem
      rw [htag] at this
      cases this
    · unfold verify_and_convert
      rw [vc_foldl_out]
      simp only [List.nil_append]
      refine List.mem_map.mpr ⟨r, ?_, rfl⟩
      refine List.mem_filter.mpr ⟨hmem, ?_⟩
      rw [hm]
      rfl
  · intro refsA refsB poolA poolB
    unfold gap_verified
    rw [Bool.and_eq_true, vc_ok_iff_untagged, vc_ok_iff_untagged]

/-- Witness for C3: a matching snippet whose text lacks the quote. -/
theorem c3_witness :
    (verify_and_convert [(⟨"s", "1", some 3, some 7, "bad quote"⟩ : CRef)]
      [(⟨"s", "1", some 3, some 7, "the snippet text"⟩ : Snip)]).ok = false :=
  ((c3_quote_not_in_snippet.1) [(⟨"s", "1", some 3, some 7, "bad quote"⟩ : CRef)]
    [(⟨"s", "1", some 3, some 7, "the snippet text"⟩ : Snip)] 0
    (⟨"s", "1", some 3, some 7, "bad quote"⟩ : CRef)
    (⟨"s", "1", some 3, some 7, "the snippet text"⟩ : Snip)
    rfl (by decide) (by decide) (by decide)).2.1

/-- C5: as stated, the claim is false — ties in the normalised-text
lookup are broken by the LAST occurrence, not the first: the dict
comprehension lets later lines overwrite earlier ones.  With two lines
whose normalised text is identical and a quote with no exact hit,
`difflib.get_close_matches` returns both copies of that normalised text
(similarity 16/18 ≈ 0.889 ≥ 0.80), i.e. exactly the candidate list,
modelled by the matcher `fun _ ls => ls`; the claim predicts the
first-occurrence mapping `[1, 1]`, the code returns `[2, 2]`. -/
theorem c5_counterexample :
    find_best_line_numbers (fun _ ls => ls)
        [(1, "abcd efgx"), (2, "abcd efgx")] ("abcd efgh") = [2, 2]
    ∧ ([2, 2] : List Nat) ≠ [1, 1] := by
  constructor
  · rfl
  · decide

/-- C5 (amended): each selected fuzzy candidate is mapped back to a line
number through the normalised-text lookup, with ties (several lines with
identical normalised text) broken by the LAST occurrence: when a
candidate equals the normalised text of line `ln` and of no later line,
the resolver returns `ln`, regardless of earlier lines with the same
normalised text. -/
theorem c5_amended_last_occurrence
    (M : String → List String → List String)
    (nls1 nls2 : List (Nat × String)) (ln : Nat) (t quote c : String)
    (hq : quote ≠ "")
    (hnoex : ∀ p ∈ nls1 ++ (ln, t) :: nls2,
      containsSub (normWs p.2) (normWs quote) = false)
    (hM : M (normWs quote) ((nls1 ++ (ln, t) :: nls2).map (fun p => normWs p.2)) = [c])
    (hc : normWs t = c)
    (hlast : ∀ p ∈ nls2, normWs p.2 ≠ c)
    (hln : ln ≠ 0) :
    find_best_line_numbers M (nls1 ++ (ln, t) :: nls2) quote = [ln] := by
  have hfil : exactHits (nls1 ++ (ln, t) :: nls2) quote = [] := by
    unfold exactHits
    rw [List.map_eq_nil_iff, List.filter_eq_nil_iff]
    intro p hp
    simp [hnoex p hp]
  have hkeep : ∀ (l : List (Nat × String)) (acc : Option Nat),
      (∀ p ∈ l, normWs p.2 ≠ c) →
      l.foldl (fun acc p => if normWs p.2 = c then some p.1 else acc) acc = acc := by
    intro l
    induction l with
    | nil => intro acc _; rfl
    | cons p ps ih =>
      intro acc hpc
      rw [List.foldl_cons]
      rw [if_neg (hpc p (List.mem_cons_self p ps))]
      exact ih acc (fun q hq2 => hpc q (List.mem_cons_of_mem p hq2))
  have hmap : normalized_map (nls1 ++ (ln, t) :: nls2) c = some ln := by
    unfold normalized_map
    rw [List.foldl_append, List.foldl_cons, hkeep nls2 _ hlast]
    simp [hc]
  unfold find_best_line_numbers
  rw [if_neg hq, hfil, if_neg (by simp), hM,
    if_neg (by simp), List.filterMap_cons, hmap]
  simp [hln]

/-- Witness for C5 (amended): the single candidate resolves to line 2,
the last of the two lines with that normalised text. -/
theorem c5_witness :
    find_best_line_numbers (fun _ _ => ["x"]) [(1, "x"), (2, "x")] ("zz") = [2] :=
  c5_amended_last_occurrence (fun _ _ => ["x"]) [(1, "x")] [] 2 ("x") ("zz") ("x")
    (by decide) (by decide) rfl rfl (by intro p hp; cases hp) (by decide)

/-- Helper: line numbers produced by `numberFrom n` are at least `n`. -/
theorem numberFrom_le_fst (n : Nat) (ls : List String) :
    ∀ p ∈ numberFrom n ls, n ≤ p.1 := by
  induction ls generalizing n with
  | nil => intro p hp; cases hp
  | cons l ls ih =>
    intro p hp
    rw [numberFrom] at hp
    rcases List.mem_cons.mp hp with h | h
    · rw [h]
    · have := ih (n + 1) p h
      omega

/-- Helper: `numberFrom` produces strictly increasing line numbers. -/
theorem numberFrom_pairwise (n : Nat) (ls : List String) :
    List.Pairwise (fun a b => a.1 < b.1) (numberFrom n ls) := by
  induction ls generalizing n with
  | nil => exact List.Pairwise.nil
  | cons l ls ih =>
    rw [numberFrom]
    refine List.Pairwise.cons ?_ (ih (n + 1))
    intro p hp
    have := numberFrom_le_fst (n + 1) ls p hp
    omega

/-- C7: a quote found verbatim (after whitespace normalisation) inside a
line of a numbered document is resolved to its true line number among
the exact hits; the exact hits are exactly the lines whose normalised
text contains the normalised quote, in strictly increasing line-number
order; and when an exact hit exists the result does not depend on the
fuzzy matcher, i.e. the fuzzy fallback is never used. -/
theorem c7_exact_hits (doc quote : String) (ln : Nat) (txt : String)
    (M M2 : String → List String → List String)
    (hq : quote ≠ "")
    (hmem : (ln, txt) ∈ number_lines doc)
    (hsub : containsSub (normWs txt) (normWs quote) = true) :
    ln ∈ find_best_line_numbers M (number_lines doc) quote
    ∧ find_best_line_numbers M (number_lines doc) quote
        = ((number_lines doc).filter
            (fun p => containsSub (normWs p.2) (normWs quote))).map (fun p => p.1)
    ∧ List.Pairwise (· < ·) (find_best_line_numbers M (number_lines doc) quote)
    ∧ find_best_line_numbers M (number_lines doc) quote
        = find_best_line_numbers M2 (number_lines doc) quote := by
  have hmf : (ln, txt) ∈ (number_lines doc).filter
      (fun p => containsSub (normWs p.2) (normWs quote)) :=
    List.mem_filter.mpr ⟨hmem, hsub⟩
  have hne : exactHits (number_lines doc) quote ≠ [] := by
    unfold exactHits
    intro h
    have hln2 : ln ∈ ((number_lines doc).filter
        (fun p => containsSub (normWs p.2) (normWs quote))).map (fun p => p.1) :=
      List.mem_map_of_mem (fun p => p.1) hmf
    rw [h] at hln2
    exact absurd hln2 (List.not_mem_nil ln)
  have heq : ∀ M3 : String → List String → List String,
      find_best_line_numbers M3 (number_lines doc) quote
        = exactHits (number_lines doc) quote := by
    intro M3
    unfold find_best_line_numbers
    rw [if_neg hq, if_pos hne]
  refine ⟨?_, (heq M).trans rfl, ?_, (heq M).trans (heq M2).symm⟩
  · rw [heq M]
    exact List.mem_map_of_mem (fun p => p.1) hmf
  · rw [heq M]
    unfold exactHits
    refine List.Pairwise.map _ (fun a b h => h) ?_
    refine List.Pairwise.sublist (List.filter_sublist _) ?_
    show List.Pairwise _ (number_lines doc)
    unfold number_lines
    exact numberFrom_pairwise 1 (pySplitlines doc)

/-- Witness for C7: the quote `foo` is found on line 2. -/
theorem c7_witness :
    2 ∈ find_best_line_numbers (fun _ _ => [])
        (number_lines ("hello world\nfoo bar")) ("foo") :=
  (c7_exact_hits ("hello world\nfoo bar") ("foo") 2 ("foo bar")
    (fun _ _ => []) (fun _ _ => ["y"]) (by decide) (by decide) (by decide)).1

/-! Windower helper lemmas. -/

/-- The carried-over slice is never longer than the buffer. -/
theorem pyKeep_length_le (buf : List String) (ov : Nat) :
    (pyKeep buf ov).length ≤ buf.length := by
  unfold pyKeep
  split
  · rw [List.length_drop]; omega
  · exact Nat.le_refl _

/-- The carried-over slice of a non-empty buffer is non-empty. -/
theorem pyKeep_ne_nil (buf : List String) (ov : Nat) (h : buf ≠ []) :
    pyKeep buf ov ≠ [] := by
  unfold pyKeep
  split
  · next hcond =>
    have hlen : (buf.drop (buf.length - ov)).length = ov := by
      rw [List.length_drop]; omega
    intro hnil
    rw [hnil] at hlen
    simp at hlen
    omega
  · exact h

/-- The carried-over slice is a trailing slice of the buffer. -/
theorem pyKeep_eq_drop (buf : List String) (ov : Nat) :
    pyKeep buf ov = buf.drop (buf.length - (pyKeep buf ov).length) := by
  unfold pyKeep
  split
  · next hcond =>
    rw [List.length_drop]
    congr 1
    omega
  · simp

/-- A trailing slice of a line-segment buffer is the segment list of the
trailing lines. -/
theorem segsOf_keep (lines : List String) (i L ov : Nat) (buf : List String)
    (hbuf : buf = SegsOf lines (i - L) L) (hL : buf.length = L) (hLi : L < i) :
    pyKeep buf ov
      = SegsOf lines (i - (pyKeep buf ov).length) ((pyKeep buf ov).length) := by
  have hk : (pyKeep buf ov).length ≤ L := hL ▸ pyKeep_length_le buf ov
  have hdrop : pyKeep buf ov = buf.drop (L - (pyKeep buf ov).length) := by
    conv_lhs => rw [pyKeep_eq_drop buf ov]
    rw [hL]
  set k := (pyKeep buf ov).length with hkdef
  rw [hdrop, hbuf]
  unfold SegsOf
  rw [← List.map_drop, List.drop_take, List.drop_drop]
  have h1 : L - (L - k) = k := by omega
  have h2 : i - L - 1 + (L - k) = i - k - 1 := by omega
  rw [h1, h2]

/-- Appending the next line's segment extends the segment buffer. -/
theorem segsOf_snoc (lines : List String) (a L : Nat) (line : String)
    (hget : lines.get? (a - 1 + L) = some line) :
    SegsOf lines a L ++ [line ++ "\n"] = SegsOf lines a (L + 1) := by
  unfold SegsOf
  rw [List.take_succ]
  have hg : (lines.drop (a - 1))[L]? = some line := by
    rw [List.getElem?_drop, ← List.get?_eq_getElem?]
    exact hget
  rw [hg]
  simp

/-- The stripped character list is empty iff everything is whitespace. -/
theorem stripList_eq_nil_iff (l : List Char) :
    stripList l = [] ↔ ∀ c ∈ l, pyIsSpace c = true := by
  unfold stripList
  rw [List.reverse_eq_nil_iff, List.dropWhile_eq_nil_iff]
  constructor
  · intro h c hc
    have hsplit : c ∈ l.takeWhile pyIsSpace ++ l.dropWhile pyIsSpace := by
      rw [List.takeWhile_append_dropWhile]; exact hc
    rcases List.mem_append.mp hsplit with h1 | h2
    · exact List.mem_takeWhile_imp h1
    · exact h c (List.mem_reverse.mpr h2)
  · intro h c hc
    exact h c ((List.dropWhile_sublist pyIsSpace).mem (List.mem_reverse.mp hc))

/-- A string with a non-whitespace character does not strip to empty. -/
theorem pyStrip_ne_empty_of_exists (s : String) (c : Char)
    (hc : c ∈ s.data) (hw : pyIsSpace c = false) : pyStrip s ≠ "" := by
  intro h
  have hdata : stripList s.data = [] := by
    have := congrArg String.data h
    exact this
  have := (stripList_eq_nil_iff s.data).mp hdata c hc
  rw [hw] at this
  cases this

/-- A string that does not strip to empty has a non-whitespace character. -/
theorem exists_of_pyStrip_ne_empty (s : String) (h : pyStrip s ≠ "") :
    ∃ c ∈ s.data, pyIsSpace c = false := by
  by_contra hall
  push_neg at hall
  apply h
  have hnil : stripList s.data = [] := by
    rw [stripList_eq_nil_iff]
    intro c hc
    have := hall c hc
    revert this
    cases pyIsSpace c <;> simp
  unfold pyStrip
  rw [hnil]

/-- The characters of a joined string list. -/
theorem join_data (L : List String) :
    (String.join L).data = (L.map String.data).flatten := by
  have haux : ∀ (M : List String) (a : String),
      (M.foldl (fun r s => r ++ s) a).data = a.data ++ (M.map String.data).flatten := by
    intro M
    induction M with
    | nil => intro a; simp
    | cons s ls ih =>
      intro a
      rw [List.foldl_cons, ih, List.map_cons, List.flatten_cons, String.data_append,
        List.append_assoc]
  have := haux L ""
  simpa [String.join] using this

/-- Characters of a member survive joining. -/
theorem mem_join_data (L : List String) (s : String) (hs : s ∈ L) (c : Char)
    (hc : c ∈ s.data) : c ∈ (String.join L).data := by
  rw [join_data]
  exact List.mem_flatten.mpr ⟨s.data, List.mem_map_of_mem String.data hs, hc⟩

/-- When every document line has a non-whitespace character, a non-empty
segment buffer never strips to the empty string, so its flush is always
emitted. -/
theorem flush_txt_ne (lines : List String) (hl : ∀ l ∈ lines, pyStrip l ≠ "")
    (buf : List String) (a L : Nat) (hbuf : buf = SegsOf lines a L)
    (hne : buf ≠ []) : pyStrip (String.join buf) ≠ "" := by
  obtain ⟨seg, hseg⟩ := List.exists_mem_of_ne_nil buf hne
  have hform : ∃ l ∈ lines, seg = l ++ "\n" := by
    rw [hbuf] at hseg
    unfold SegsOf at hseg
    obtain ⟨l, hl2, hval⟩ := List.mem_map.mp hseg
    have hmem : l ∈ lines :=
      ((List.take_sublist L (lines.drop (a - 1))).trans
        (List.drop_sublist (a - 1) lines)).mem hl2
    exact ⟨l, hmem, hval.symm⟩
  obtain ⟨l, hlm, hval⟩ := hform
  obtain ⟨c, hc, hw⟩ := exists_of_pyStrip_ne_empty l (hl l hlm)
  refine pyStrip_ne_empty_of_exists _ c ?_ hw
  refine mem_join_data buf seg hseg c ?_
  rw [hval, String.data_append]
  exact List.mem_append_left _ hc

/-- Helper: full characterisation of a flush step in a reachable state:
the next buffer is the carried trailing slice, corresponding to the
trailing document lines starting at line `i - keep.length`; the
recomputed `start_ln` is one MORE than that first carried-over line; and
a non-whitespace buffer is emitted as `⟨start_ln, i - 1, text⟩`. -/
theorem flushState_spec (ov i : Nat) (st : WinSt) (lines : List String)
    (hbuf : st.buf = SegsOf lines (i - st.buf.length) st.buf.length)
    (_hne : st.buf ≠ [])
    (hlen : st.buf.length < i) :
    (flushState ov i st).buf = pyKeep st.buf ov
    ∧ pyKeep st.buf ov
        = SegsOf lines (i - (pyKeep st.buf ov).length) ((pyKeep st.buf ov).length)
    ∧ (flushState ov i st).start_ln = (i - (pyKeep st.buf ov).length) + 1
    ∧ (pyStrip (String.join st.buf) ≠ "" →
        (flushState ov i st).nodes
          = st.nodes ++ [⟨st.start_ln, i - 1, pyStrip (String.join st.buf)⟩]) := by
  refine ⟨rfl, ?_, ?_, ?_⟩
  · exact segsOf_keep lines i st.buf.length ov st.buf hbuf rfl hlen
  · show max 1 (i - (pyKeep st.buf ov).length + 1) = i - (pyKeep st.buf ov).length + 1
    omega
  · intro ht
    show (if pyStrip (String.join st.buf) = "" then st.nodes
        else st.nodes ++ [⟨st.start_ln, i - 1, pyStrip (String.join st.buf)⟩]) = _
    rw [if_neg ht]

/-- Helper: one windower iteration preserves the monotonicity invariant. -/
theorem windowStep_mono (w ov : Nat) (line : String) (i : Nat) (st : WinSt)
    (hi : 1 ≤ i) (hinv : WMonoInv i st) :
    WMonoInv (i + 1) (windowStep w ov line i st) := by
  obtain ⟨hbound, hchain⟩ := hinv
  by_cases hcond : w < st.cur_len + (line ++ "\n").length ∧ st.buf ≠ []
  · have hnodes : (windowStep w ov line i st).nodes = (flushState ov i st).nodes := by
      unfold windowStep
      rw [if_pos hcond]
    by_cases htxt : pyStrip (String.join st.buf) = ""
    · have h2 : (flushState ov i st).nodes = st.nodes := by
        unfold flushState
        rw [if_pos htxt]
      constructor
      · intro nd hnd
        rw [hnodes, h2] at hnd
        exact Nat.lt_succ_of_lt (hbound nd hnd)
      · rw [hnodes, h2]
        exact hchain
    · have h2 : (flushState ov i st).nodes
          = st.nodes ++ [⟨st.start_ln, i - 1, pyStrip (String.join st.buf)⟩] := by
        unfold flushState
        rw [if_neg htxt]
      constructor
      · intro nd hnd
        rw [hnodes, h2] at hnd
        rcases List.mem_append.mp hnd with h | h
        · exact Nat.lt_succ_of_lt (hbound nd h)
        · have : nd = ⟨st.start_ln, i - 1, pyStrip (String.join st.buf)⟩ :=
            List.mem_singleton.mp h
          rw [this]
          show i - 1 < i + 1
          omega
      · rw [hnodes, h2, List.map_append, List.chain'_append]
        refine ⟨hchain, List.chain'_singleton _, ?_⟩
        intro x hx y hy
        have hxmem := List.mem_of_mem_getLast? hx
        obtain ⟨nd, hnd, rfl⟩ := List.mem_map.mp hxmem
        have hb := hbound nd hnd
        have hy2 : i - 1 = y := by simpa using hy
        omega
  · have hnodes : (windowStep w ov line i st).nodes = st.nodes := by
      unfold windowStep
      rw [if_neg hcond]
    constructor
    · intro nd hnd
      rw [hnodes] at hnd
      exact Nat.lt_succ_of_lt (hbound nd hnd)
    · rw [hnodes]
      exact hchain

/-- Helper: the whole windower loop preserves monotonicity. -/
theorem windowLoop_mono (w ov : Nat) :
    ∀ (rest : List String) (i : Nat) (st : WinSt), 1 ≤ i → WMonoInv i st →
      WMonoInv (i + rest.length) (windowLoop w ov rest i st) := by
  intro rest
  induction rest with
  | nil =>
    intro i st hi hinv
    simpa [windowLoop] using hinv
  | cons line rs ih =>
    intro i st hi hinv
    have hrec := ih (i + 1) (windowStep w ov line i st) (by omega)
      (windowStep_mono w ov line i st hi hinv)
    have harr : i + (line :: rs).length = i + 1 + rs.length := by
      simp only [List.length_cons]
      omega
    rw [harr]
    exact hrec

/-- Helper: one windower iteration preserves the coverage invariant,
assuming every document line holds a non-whitespace character (so no
flush is ever discarded). -/
theorem windowStep_cover (w ov : Nat) (lines : List String)
    (hl : ∀ l ∈ lines, pyStrip l ≠ "")
    (line : String) (i : Nat) (st : WinSt)
    (hget : lines.get? (i - 1) = some line)
    (hi : 1 ≤ i)
    (hinv : WCoverInv lines i st) :
    WCoverInv lines (i + 1) (windowStep w ov line i st) := by
  obtain ⟨hbuf, hlen, hs1, hsle, hcov, hne2⟩ := hinv
  by_cases hcond : w < st.cur_len + (line ++ "\n").length ∧ st.buf ≠ []
  · have hbne := hcond.2
    obtain ⟨hb1, hb2, hst, hnodes⟩ := flushState_spec ov i st lines hbuf hbne hlen
    have htxt : pyStrip (String.join st.buf) ≠ "" :=
      flush_txt_ne lines hl st.buf (i - st.buf.length) st.buf.length hbuf hbne
    have hnodes2 := hnodes htxt
    have hk1 : 1 ≤ (pyKeep st.buf ov).length :=
      List.length_pos.mpr (pyKeep_ne_nil st.buf ov hbne)
    have hkle : (pyKeep st.buf ov).length ≤ st.buf.length := pyKeep_length_le st.buf ov
    have hwbuf : (windowStep w ov line i st).buf
        = pyKeep st.buf ov ++ [line ++ "\n"] := by
      unfold windowStep
      rw [if_pos hcond]
      rfl
    have hwnodes : (windowStep w ov line i st).nodes
        = st.nodes ++ [⟨st.start_ln, i - 1, pyStrip (String.join st.buf)⟩] := by
      unfold windowStep
      rw [if_pos hcond]
      exact hnodes2
    have hwstart : (windowStep w ov line i st).start_ln
        = i - (pyKeep st.buf ov).length + 1 := by
      unfold windowStep
      rw [if_pos hcond]
      exact hst
    have hlen2 : (windowStep w ov line i st).buf.length
        = (pyKeep st.buf ov).length + 1 := by
      rw [hwbuf]
      simp
    have hbufnew : (windowStep w ov line i st).buf
        = SegsOf lines (i - (pyKeep st.buf ov).length) ((pyKeep st.buf ov).length + 1) := by
      conv_lhs => rw [hwbuf, hb2]
      apply segsOf_snoc
      have harr : i - (pyKeep st.buf ov).length - 1 + (pyKeep st.buf ov).length
          = i - 1 := by omega
      rw [harr]
      exact hget
    refine ⟨?_, ?_, ?_, ?_, ?_, ?_⟩
    · rw [hlen2, hbufnew]
      have harr : i + 1 - ((pyKeep st.buf ov).length + 1)
          = i - (pyKeep st.buf ov).length := by omega
      rw [harr]
    · rw [hlen2]
      omega
    · rw [hwstart]
      omega
    · rw [hwstart]
      omega
    · intro l h1 h2
      rw [hwstart] at h2
      rw [hwnodes]
      by_cases hls : l < st.start_ln
      · obtain ⟨nd, hnd, ha, hb⟩ := hcov l h1 hls
        exact ⟨nd, List.mem_append_left _ hnd, ha, hb⟩
      · push_neg at hls
        refine ⟨⟨st.start_ln, i - 1, pyStrip (String.join st.buf)⟩,
          List.mem_append_right _ (List.mem_singleton_self _), hls, ?_⟩
        show l ≤ i - 1
        omega
    · intro _
      rw [hwbuf]
      exact List.append_ne_nil_of_right_ne_nil _ (by simp)
  · have hwbuf : (windowStep w ov line i st).buf = st.buf ++ [line ++ "\n"] := by
      unfold windowStep
      rw [if_neg hcond]
    have hwnodes : (windowStep w ov line i st).nodes = st.nodes := by
      unfold windowStep
      rw [if_neg hcond]
    have hwstart : (windowStep w ov line i st).start_ln = st.start_ln := by
      unfold windowStep
      rw [if_neg hcond]
    have hlen2 : (windowStep w ov line i st).buf.length = st.buf.length + 1 := by
      rw [hwbuf]
      simp
    refine ⟨?_, ?_, ?_, ?_, ?_, ?_⟩
    · rw [hlen2, hwbuf]
      have harr : i + 1 - (st.buf.length + 1) = i - st.buf.length := by omega
      rw [harr]
      conv_lhs => rw [hbuf]
      apply segsOf_snoc
      have harr2 : i - st.buf.length - 1 + st.buf.length = i - 1 := by omega
      rw [harr2]
      exact hget
    · rw [hlen2]
      omega
    · rw [hwstart]
      exact hs1
    · rw [hwstart]
      omega
    · intro l h1 h2
      rw [hwstart] at h2
      rw [hwnodes]
      exact hcov l h1 h2
    · intro _
      rw [hwbuf]
      exact List.append_ne_nil_of_right_ne_nil _ (by simp)

/-- Helper: the whole windower loop preserves the coverage invariant. -/
theorem windowLoop_cover (w ov : Nat) (lines : List String)
    (hl : ∀ l ∈ lines, pyStrip l ≠ "") :
    ∀ (rest : List String) (i : Nat) (st : WinSt),
      rest = lines.drop (i - 1) → 1 ≤ i → i ≤ lines.length + 1 →
      WCoverInv lines i st →
      WCoverInv lines (lines.length + 1) (windowLoop w ov rest i st) := by
  intro rest
  induction rest with
  | nil =>
    intro i st hrest hi hile hinv
    have hlen : lines.length ≤ i - 1 := by
      have hcong := congrArg List.length hrest
      simp only [List.length_nil, List.length_drop] at hcong
      omega
    have hieq : i = lines.length + 1 := by omega
    show WCoverInv lines (lines.length + 1) st
    rw [← hieq]
    exact hinv
  | cons line rs ih =>
    intro i st hrest hi hile hinv
    have hget : lines.get? (i - 1) = some line := by
      have h0 : (lines.drop (i - 1)).get? 0 = some line := by
        rw [← hrest]
        rfl
      rw [List.get?_eq_getElem?, List.getElem?_drop, ← List.get?_eq_getElem?] at h0
      simpa using h0
    have hrest2 : rs = lines.drop i := by
      have hdd : (lines.drop (i - 1)).drop 1 = lines.drop i := by
        rw [List.drop_drop]
        congr 1
        omega
      rw [← hdd, ← hrest]
      rfl
    have hilen : i ≤ lines.length := by
      obtain ⟨hlt, -⟩ := List.get?_eq_some.mp hget
      omega
    show WCoverInv lines (lines.length + 1)
      (windowLoop w ov rs (i + 1) (windowStep w ov line i st))
    refine ih (i + 1) (windowStep w ov line i st) ?_ (by omega) (by omega)
      (windowStep_cover w ov lines hl line i st hget hi hinv)
    have harr : i + 1 - 1 = i := by omega
    rw [hrest2, harr]

/-- C6: as stated, the claim is false — the recomputed `line_start` is
off by one.  At `window_chars = 10`, `overlap = 1` on the three lines
`aaaaa`, `bbbbb`, `ccccc`, the second flushed buffer holds document
lines 1-2 (its text is `aaaaa\nbbbbb`), yet it is emitted with
`line_start = 2`, not 1; the claim predicts the node
`⟨1, 2, "aaaaa\nbbbbb"⟩`. -/
theorem c6_counterexample :
    make_line_window_nodes 10 1 ("aaaaa\nbbbbb\nccccc")
        = [⟨1, 1, "aaaaa"⟩, ⟨2, 2, "aaaaa\nbbbbb"⟩, ⟨3, 3, "bbbbb\nccccc"⟩]
    ∧ (make_line_window_nodes 10 1 ("aaaaa\nbbbbb\nccccc")).get? 1
        ≠ some ⟨1, 2, "aaaaa\nbbbbb"⟩ := by
  constructor
  · rfl
  · decide

/-- C6 (amended): when the windower flushes at loop index `i` with the
buffer holding the segments of document lines `i - len, ..., i - 1`, a
non-whitespace buffer is emitted as a snippet with `line_end = i - 1`
(the last buffered line) and `line_start` equal to the tracked counter;
the next buffer is seeded with the last `overlap` lines of the flushed
buffer (the whole buffer when `overlap = 0` or `overlap ≥` buffer size),
i.e. the segments of lines `i - keep.length, ..., i - 1`; and the
recomputed `line_start` is `i - keep.length + 1`, one MORE than the
first carried-over line's number — so after the first carry-over a
flushed snippet's `line_start` exceeds its first buffered line by one
(see `c6_counterexample`). -/
theorem c6_amended_flush (ov i : Nat) (st : WinSt) (lines : List String)
    (hbuf : st.buf = SegsOf lines (i - st.buf.length) st.buf.length)
    (hne : st.buf ≠ [])
    (hlen : st.buf.length < i) :
    (flushState ov i st).buf = pyKeep st.buf ov
    ∧ pyKeep st.buf ov
        = SegsOf lines (i - (pyKeep st.buf ov).length) ((pyKeep st.buf ov).length)
    ∧ (flushState ov i st).start_ln = (i - (pyKeep st.buf ov).length) + 1
    ∧ (pyStrip (String.join st.buf) ≠ "" →
        (flushState ov i st).nodes
          = st.nodes ++ [⟨st.start_ln, i - 1, pyStrip (String.join st.buf)⟩]) :=
  flushState_spec ov i st lines hbuf hne hlen

/-- Witness for C6 (amended): flushing the buffer of lines 1-2 at index
3 emits `⟨1, 2, "aa\nbb"⟩` and reseeds with `start_ln = 3` although the
carried-over line is line 2. -/
theorem c6_witness :
    (flushState 1 3 ⟨[], ["aa\n", "bb\n"], 1, 6⟩).start_ln = 3
    ∧ (flushState 1 3 ⟨[], ["aa\n", "bb\n"], 1, 6⟩).nodes = [⟨1, 2, "aa\nbb"⟩] := by
  have h := c6_amended_flush 1 3 ⟨[], ["aa\n", "bb\n"], 1, 6⟩ ["aa", "bb"]
    (by decide) (by decide) (by decide)
  obtain ⟨-, -, h3, h4⟩ := h
  constructor
  · rw [h3]
    decide
  · have h5 := h4 (by decide)
    rw [h5]
    decide

/-- C9: as stated, the claim is false — a whitespace-only window is
discarded while the line counters advance, so its lines are covered by
no snippet.  At `window_chars = 2`, `overlap = 1` on the document
`"\n\n\naaaa"` (three blank lines then `aaaa`), the only emitted snippet
is `⟨4, 4, "aaaa"⟩` and line 1 lies in no snippet's range. -/
theorem c9_counterexample :
    make_line_window_nodes 2 1 ("\n\n\naaaa") = [⟨4, 4, "aaaa"⟩]
    ∧ (pySplitlines ("\n\n\naaaa")).length = 4
    ∧ ¬ coveredBy (make_line_window_nodes 2 1 ("\n\n\naaaa")) 1 := by
  refine ⟨rfl, rfl, ?_⟩
  intro h
  obtain ⟨nd, hnd, hs, he⟩ := h
  rw [show make_line_window_nodes 2 1 ("\n\n\naaaa") = [⟨4, 4, "aaaa"⟩] from rfl] at hnd
  have hnd2 : nd = ⟨4, 4, "aaaa"⟩ := List.mem_singleton.mp hnd
  rw [hnd2] at hs
  exact absurd hs (by decide)

/-- C9 (amended): provided every document line contains a
non-whitespace character (so no flushed window is whitespace-only),
every original line number lies in at least one emitted snippet's
`[line_start, line_end]` range; and unconditionally, `line_end` is
monotonically non-decreasing across the consecutive snippets of a
document. -/
theorem c9_amended_cover_mono (w ov : Nat) (text : String) :
    ((∀ l ∈ pySplitlines text, pyStrip l ≠ "") →
      ∀ ln : Nat, 1 ≤ ln → ln ≤ (pySplitlines text).length →
        coveredBy (make_line_window_nodes w ov text) ln)
    ∧ List.Chain' (· ≤ ·) ((make_line_window_nodes w ov text).map WNode.line_end) := by
  have hinit_cover : WCoverInv (pySplitlines text) 1 ⟨[], [], 1, 0⟩ := by
    refine ⟨rfl, by decide, by decide, by decide, ?_, ?_⟩
    · intro l h1 h2
      have h3 : l < 1 := h2
      omega
    · intro h
      exact absurd h (by decide)
  have hinit_mono : WMonoInv 1 ⟨[], [], 1, 0⟩ := by
    constructor
    · intro nd hnd
      cases hnd
    · simp
  constructor
  · intro hl ln h1 h2
    have hloop := windowLoop_cover w ov (pySplitlines text) hl (pySplitlines text) 1
      ⟨[], [], 1, 0⟩ (by simp) (by omega) (by omega) hinit_cover
    obtain ⟨hbuf, hlen, hs1, hsle, hcov, hne2⟩ := hloop
    show coveredBy (finalFlush (pySplitlines text).length
      (windowLoop w ov (pySplitlines text) 1 ⟨[], [], 1, 0⟩)) ln
    have hbufne : (windowLoop w ov (pySplitlines text) 1 ⟨[], [], 1, 0⟩).buf ≠ [] := by
      apply hne2
      omega
    have htxt : pyStrip (String.join
        (windowLoop w ov (pySplitlines text) 1 ⟨[], [], 1, 0⟩).buf) ≠ "" :=
      flush_txt_ne (pySplitlines text) hl _ _ _ hbuf hbufne
    have hff : finalFlush (pySplitlines text).length
        (windowLoop w ov (pySplitlines text) 1 ⟨[], [], 1, 0⟩)
        = (windowLoop w ov (pySplitlines text) 1 ⟨[], [], 1, 0⟩).nodes
          ++ [⟨(windowLoop w ov (pySplitlines text) 1 ⟨[], [], 1, 0⟩).start_ln,
              (pySplitlines text).length,
              pyStrip (String.join
                (windowLoop w ov (pySplitlines text) 1 ⟨[], [], 1, 0⟩).buf)⟩] := by
      unfold finalFlush
      rw [if_neg hbufne, if_neg htxt]
    rw [hff]
    by_cases hls : ln < (windowLoop w ov (pySplitlines text) 1 ⟨[], [], 1, 0⟩).start_ln
    · obtain ⟨nd, hnd, ha, hb⟩ := hcov ln h1 hls
      exact ⟨nd, List.mem_append_left _ hnd, ha, hb⟩
    · push_neg at hls
      exact ⟨_, List.mem_append_right _ (List.mem_singleton_self _), hls, h2⟩
  · have hloop := windowLoop_mono w ov (pySplitlines text) 1 ⟨[], [], 1, 0⟩
      (by omega) hinit_mono
    obtain ⟨hbound, hchain⟩ := hloop
    show List.Chain' _ ((finalFlush (pySplitlines text).length
      (windowLoop w ov (pySplitlines text) 1 ⟨[], [], 1, 0⟩)).map WNode.line_end)
    unfold finalFlush
    by_cases hb1 : (windowLoop w ov (pySplitlines text) 1 ⟨[], [], 1, 0⟩).buf = []
    · rw [if_pos hb1]
      exact hchain
    · rw [if_neg hb1]
      by_cases hb2 : pyStrip (String.join
          (windowLoop w ov (pySplitlines text) 1 ⟨[], [], 1, 0⟩).buf) = ""
      · rw [if_pos hb2]
        exact hchain
      · rw [if_neg hb2, List.map_append, List.chain'_append]
        refine ⟨hchain, List.chain'_singleton _, ?_⟩
        intro x hx y hy
        have hxmem := List.mem_of_mem_getLast? hx
        obtain ⟨nd, hnd, rfl⟩ := List.mem_map.mp hxmem
        have hb := hbound nd hnd
        have hy2 : (pySplitlines text).length = y := by simpa using hy
        omega

/-- Witness for C9 (amended): a document of non-blank lines has its
line 2 covered. -/
theorem c9_witness :
    coveredBy (make_line_window_nodes 10 1 ("aaaaa\nbbbbb\nccccc")) 2 :=
  (c9_amended_cover_mono 10 1 ("aaaaa\nbbbbb\nccccc")).1 (by decide) 2
    (by decide) (by decide)

end PolicyAudit
